/-
Verification of the eBPF process-execution monitor ("task"):
a shallow embedding of the kernel-side capture program
(src/task-ebpf/src/main.rs), the shared wire format
(src/task-common/src/lib.rs), and the userspace consumer / execution
store (src/task/src/store.rs), together with theorems about the
wire-format agreement, truncation, exclusion filtering, timestamp
correlation, and the FIFO store.

Conventions of the embedding:
 - machine integers are `Nat` (unsigned) or `Int` (signed) with explicit
   `% 2^w` / wrap-around where the Rust code can overflow;
 - byte buffers are `List Nat` (each element one byte value);
 - fallible Rust code (`Result`, slice indexing that can panic) becomes
   `Except` / `Option`;
 - the target is a 64-bit platform, so Rust `usize` is 8 bytes wide.
-/
import Mathlib

namespace Task

/-- A byte buffer: a list of byte values. -/
abbrev Bytes := List Nat

/-- `task_common::ARGV_LEN`: capacity of one argument slot. -/
def ARGV_LEN : Nat := 32

/-- `task_common::ARGV_OFFSET`: number of argument slots. -/
def ARGV_OFFSET : Nat := 4

/-- `task_common::COMMAND_LEN`: capacity of the command buffer. -/
def COMMAND_LEN : Nat := 64

/-- `task::MAX_EVENTS`: FIFO capacity of the execution store. -/
def MAX_EVENTS : Nat := 500

/-- The shared wire-format record `ExecEvent`
(`task_common::ExecEvent` and the identical kernel-side copy). -/
structure ExecEvent where
  pid : Nat
  timestamp : Nat
  command : Bytes
  command_len : Nat
  argvs : List Bytes
  argvs_offset : List Nat
  deriving DecidableEq, Repr

/-- Well-formedness of an `ExecEvent` as a value of the Rust type:
field values fit their machine-integer widths and the fixed-size arrays
have their declared lengths. -/
def ExecEvent.WF (ev : ExecEvent) : Prop :=
  ev.pid < 2 ^ 32 ∧ ev.timestamp < 2 ^ 64 ∧
  ev.command.length = COMMAND_LEN ∧ (∀ b ∈ ev.command, b < 256) ∧
  ev.command_len < 2 ^ 64 ∧
  ev.argvs.length = ARGV_OFFSET ∧
  (∀ a ∈ ev.argvs, a.length = ARGV_LEN ∧ ∀ b ∈ a, b < 256) ∧
  ev.argvs_offset.length = ARGV_OFFSET ∧ (∀ o ∈ ev.argvs_offset, o < 2 ^ 64)

instance (ev : ExecEvent) : Decidable ev.WF := by
  unfold ExecEvent.WF; infer_instance

/-! ## Wire format: little-endian serialization

The perf-event channel transports the raw bytes of the kernel-side
struct; the consumer reinterprets them as the userspace struct
(`ptr.read_unaligned()` in src/task/src/main.rs).  We model the two
`#[repr(C)]` struct declarations by their field lists (name, size in
bytes, alignment), compute the C layout offsets, and show that the bytes
written according to the kernel-side declaration decode to the same
record according to the userspace declaration. -/

/-- Little-endian encoding of `n` into `w` bytes. -/
def natToLE : Nat → Nat → Bytes
  | 0, _ => []
  | w + 1, n => n % 256 :: natToLE w (n / 256)

/-- Little-endian decoding of a byte buffer. -/
def leToNat : Bytes → Nat
  | [] => 0
  | b :: bs => b + 256 * leToNat bs

/-- Field list of the kernel-side `ExecEvent` declaration
(src/task-ebpf/src/main.rs): name, size in bytes, alignment.
`usize` is 8 bytes on the 64-bit target. -/
def kernelExecEventFields : List (String × Nat × Nat) :=
  [("pid", 4, 4), ("timestamp", 8, 8), ("command", 64, 1),
   ("command_len", 8, 8), ("argvs", 128, 1), ("argvs_offset", 32, 8)]

/-- Field list of the userspace `ExecEvent` declaration
(src/task-common/src/lib.rs): name, size in bytes, alignment. -/
def userExecEventFields : List (String × Nat × Nat) :=
  [("pid", 4, 4), ("timestamp", 8, 8), ("command", 64, 1),
   ("command_len", 8, 8), ("argvs", 128, 1), ("argvs_offset", 32, 8)]

/-- Round `off` up to a multiple of the alignment `a`. -/
def alignTo (off a : Nat) : Nat := (off + a - 1) / a * a

/-- `#[repr(C)]` field offsets: each field at the next aligned offset. -/
def reprCOffsets : List (String × Nat × Nat) → Nat → List Nat
  | [], _ => []
  | (_, sz, al) :: fs, off =>
    let o := alignTo off al
    o :: reprCOffsets fs (o + sz)

/-- Serialize an `ExecEvent` as the kernel-side producer lays it out in
memory: fields in declaration order at their `#[repr(C)]` offsets
(4 padding bytes between `pid` and `timestamp`), multi-byte integers
little-endian. -/
def encodeExecEvent (ev : ExecEvent) : Bytes :=
  natToLE 4 ev.pid ++
  (List.replicate 4 0 ++
  (natToLE 8 ev.timestamp ++
  (ev.command ++
  (natToLE 8 ev.command_len ++
  (ev.argvs.flatten ++
  (ev.argvs_offset.map (natToLE 8)).flatten)))))

/-- Parse the transported bytes as the userspace `ExecEvent`
declaration reads them: same declaration order, sizes and padding. -/
def decodeExecEvent (bs : Bytes) : ExecEvent :=
  let rest0 := bs.drop 4
  let rest1 := rest0.drop 4
  let rest2 := rest1.drop 8
  let rest3 := rest2.drop 64
  let rest4 := rest3.drop 8
  let rest5 := rest4.drop 128
  { pid := leToNat (bs.take 4)
    timestamp := leToNat (rest1.take 8)
    command := rest2.take 64
    command_len := leToNat (rest3.take 8)
    argvs := [rest4.take 32, (rest4.drop 32).take 32,
              (rest4.drop 64).take 32, (rest4.drop 96).take 32]
    argvs_offset := [leToNat (rest5.take 8), leToNat ((rest5.drop 8).take 8),
                     leToNat ((rest5.drop 16).take 8), leToNat ((rest5.drop 24).take 8)] }

/-! ## Kernel-side capture program (src/task-ebpf/src/main.rs) -/

/-- Outcome of the kernel reading argv slot `i` from user memory: the
pointer read may fail, the pointer may be null (end of argv), the
string read may fail, or a string is read. -/
inductive ArgvRead where
  | ptrErr (e : Int)
  | null
  | strErr (e : Int)
  | str (s : Bytes)
  deriving DecidableEq, Repr

/-- Modelled from the spec: the external eBPF helper
`bpf_probe_read_user_str_bytes` (from the aya runtime, not part of this
repository) copies a NUL-terminated user string into a fixed buffer of
capacity `cap` and yields the captured bytes — the whole string, or its
first `cap` bytes when the source is longer ("copies the string into
the slot's fixed buffer and records either the captured length or the
buffer's full capacity, whichever is smaller"). -/
def bpfProbeReadUserStrBytes (src : Bytes) (cap : Nat) : Bytes :=
  src.take cap

/-- `is_excluded` (src/task-ebpf/src/main.rs): zero-pad the first
`min command_len COMMAND_LEN` bytes of the copied command to the fixed
key width and look the key up in the `EXCLUDED_CMDS` map, modelled by
its list of keys. -/
def is_excluded (command : Bytes) (command_len : Nat) (excluded : List Bytes) : Bool :=
  let len := min command_len COMMAND_LEN
  let key := command.take len ++ List.replicate (COMMAND_LEN - len) 0
  decide (key ∈ excluded)

/-- One iteration of the capture loop body: propagate read failures,
signal loop exit on a null pointer, otherwise capture the string into a
zero-initialized 32-byte slot buffer and compute the recorded length
`if len >= ARGV_LEN { ARGV_LEN } else { len }`. -/
def argSlot (r : ArgvRead) : Except Int (Option (Bytes × Nat)) :=
  match r with
  | .ptrErr e => .error e
  | .null => .ok none
  | .strErr e => .error e
  | .str s =>
    let slice := bpfProbeReadUserStrBytes s ARGV_LEN
    let len := slice.length
    .ok (some (slice ++ List.replicate (ARGV_LEN - slice.length) 0,
               if ARGV_LEN ≤ len then ARGV_LEN else len))

/-- The capture loop over argv slots `i, i+1, ...` with `fuel` slots
remaining: stops at the first null pointer, propagates read errors, and
collects each processed slot's buffer and recorded length. -/
def argLoop (argv : Nat → ArgvRead) (i : Nat) : Nat → Except Int (List (Bytes × Nat))
  | 0 => .ok []
  | fuel + 1 =>
    match argSlot (argv i) with
    | .error e => .error e
    | .ok none => .ok []
    | .ok (some p) =>
      match argLoop argv (i + 1) fuel with
      | .error e => .error e
      | .ok l => .ok (p :: l)

/-- `try_task` (src/task-ebpf/src/main.rs), with the trace context's
user-memory reads supplied as parameters: `filename` is the outcome of
reading the filename pointer and probing the command string, `argvBase`
the outcome of reading the argv array pointer, and `argv i` the outcome
of the two reads for slot `i`.  The result is the Rust `Result`
together with the list of events published to the per-CPU channel. -/
def try_task (pid timestamp : Nat) (filename : Except Int Bytes)
    (argvBase : Except Int Unit) (argv : Nat → ArgvRead)
    (excluded : List Bytes) : Except Int (Nat × List ExecEvent) :=
  match filename with
  | .error e => .error e
  | .ok src =>
    let command_slice := bpfProbeReadUserStrBytes src COMMAND_LEN
    let command := command_slice ++
      List.replicate (COMMAND_LEN - command_slice.length) 0
    let command_len := command_slice.length
    if is_excluded command_slice command_len excluded then
      .ok (0, [])
    else
      match argvBase with
      | .error e => .error e
      | .ok _ =>
        match argLoop argv 0 ARGV_OFFSET with
        | .error e => .error e
        | .ok slots =>
          let event : ExecEvent :=
            { pid := pid
              timestamp := timestamp
              command := command
              command_len := command_len
              argvs := slots.map Prod.fst ++
                List.replicate (ARGV_OFFSET - slots.length) (List.replicate ARGV_LEN 0)
              argvs_offset := slots.map Prod.snd ++
                List.replicate (ARGV_OFFSET - slots.length) 0 }
          .ok (0, [event])

/-! ## Userspace consumer (src/task/src/store.rs) -/

/-- A UTF-8 continuation byte. -/
def isCont (b : Nat) : Bool := 0x80 ≤ b && b ≤ 0xBF

/-- Valid range of the first continuation byte after a 3-byte leader. -/
def cont1OK3 (b b1 : Nat) : Bool :=
  if b = 0xE0 then 0xA0 ≤ b1 && b1 ≤ 0xBF
  else if b = 0xED then 0x80 ≤ b1 && b1 ≤ 0x9F
  else isCont b1

/-- Valid range of the first continuation byte after a 4-byte leader. -/
def cont1OK4 (b b1 : Nat) : Bool :=
  if b = 0xF0 then 0x90 ≤ b1 && b1 ≤ 0xBF
  else if b = 0xF4 then 0x80 ≤ b1 && b1 ≤ 0x8F
  else isCont b1

/-- The replacement character U+FFFD. -/
def REPL : Nat := 0xFFFD

/-- Decode the tail of a 2-byte sequence: the produced scalar value
(or U+FFFD) and how many tail bytes the maximal subpart consumed. -/
def step2 (b : Nat) (bs : Bytes) : Nat × Nat :=
  match bs with
  | [] => (REPL, 0)
  | b1 :: _ =>
    if isCont b1 then ((b - 0xC0) * 0x40 + (b1 - 0x80), 1) else (REPL, 0)

/-- Decode the tail of a 3-byte sequence. -/
def step3 (b : Nat) (bs : Bytes) : Nat × Nat :=
  match bs with
  | [] => (REPL, 0)
  | [b1] => if cont1OK3 b b1 then (REPL, 1) else (REPL, 0)
  | b1 :: b2 :: _ =>
    if cont1OK3 b b1 then
      if isCont b2 then
        ((b - 0xE0) * 0x1000 + (b1 - 0x80) * 0x40 + (b2 - 0x80), 2)
      else (REPL, 1)
    else (REPL, 0)

/-- Decode the tail of a 4-byte sequence. -/
def step4 (b : Nat) (bs : Bytes) : Nat × Nat :=
  match bs with
  | [] => (REPL, 0)
  | [b1] => if cont1OK4 b b1 then (REPL, 1) else (REPL, 0)
  | [b1, b2] =>
    if cont1OK4 b b1 then
      (if isCont b2 then (REPL, 2) else (REPL, 1))
    else (REPL, 0)
  | b1 :: b2 :: b3 :: _ =>
    if cont1OK4 b b1 then
      if isCont b2 then
        if isCont b3 then
          ((b - 0xF0) * 0x40000 + (b1 - 0x80) * 0x1000 +
            (b2 - 0x80) * 0x40 + (b3 - 0x80), 3)
        else (REPL, 2)
      else (REPL, 1)
    else (REPL, 0)

/-- The decoding loop, with a step budget `fuel`.  A step always
consumes the head byte plus the tail bytes its maximal subpart covers,
so a budget of the input length never runs out. -/
def utf8LossyAux : Nat → Bytes → List Nat
  | 0, _ => []
  | _ + 1, [] => []
  | fuel + 1, b :: bs =>
    if b < 0x80 then b :: utf8LossyAux fuel bs
    else if 0xC2 ≤ b && b ≤ 0xDF then
      (step2 b bs).1 :: utf8LossyAux fuel (bs.drop (step2 b bs).2)
    else if 0xE0 ≤ b && b ≤ 0xEF then
      (step3 b bs).1 :: utf8LossyAux fuel (bs.drop (step3 b bs).2)
    else if 0xF0 ≤ b && b ≤ 0xF4 then
      (step4 b bs).1 :: utf8LossyAux fuel (bs.drop (step4 b bs).2)
    else REPL :: utf8LossyAux fuel bs

/-- `String::from_utf8_lossy(..).to_string()` as a list of Unicode
scalar values: decode UTF-8, replacing each maximal invalid subpart
with U+FFFD. -/
def utf8Lossy (l : Bytes) : List Nat := utf8LossyAux l.length l

/-- `Vec::join(" ")` on decoded strings. -/
def joinSpace : List (List Nat) → List Nat
  | [] => []
  | [x] => x
  | x :: xs => x ++ 32 :: joinSpace xs

/-- Largest signed 64-bit value. -/
def I64_MAX : Int := 2 ^ 63 - 1

/-- Smallest signed 64-bit value. -/
def I64_MIN : Int := -(2 ^ 63)

/-- Rust `as i64` on a u64 value: two's-complement reinterpretation. -/
def u64AsI64 (n : Nat) : Int :=
  if n < 2 ^ 63 then (n : Int) else (n : Int) - 2 ^ 64

/-- Nanoseconds per second. -/
def NANOS_PER_SEC : Int := 1000000000

/-- chrono `Duration::num_seconds` of a duration of `d` nanoseconds:
whole seconds, rounding toward zero. -/
def numSeconds (d : Int) : Int := d.tdiv NANOS_PER_SEC

/-- chrono `Duration::num_nanoseconds`: the total nanosecond count,
unless it overflows a signed 64-bit integer. -/
def numNanoseconds (d : Int) : Option Int :=
  if I64_MIN ≤ d ∧ d ≤ I64_MAX then some d else none

/-- Rust `%` on i64: remainder with the sign of the dividend. -/
def i64Rem (a b : Int) : Int := a.tmod b

/-- Rust `as u32` on an i64 value: wrap modulo `2^32`. -/
def i64AsU32 (a : Int) : Nat := (a % 2 ^ 32).toNat

/-- chrono `DateTime::<Utc>::from_timestamp secs nsecs`: defined when
the sub-second count is below `2·10^9` (the extra second of room is for
leap seconds) and the seconds fit chrono's representable date range. -/
def fromTimestamp (secs : Int) (nsecs : Nat) : Option (Int × Nat) :=
  if nsecs < 2000000000 ∧ -8334601228800 ≤ secs ∧ secs ≤ 8210266876799 then
    some (secs, nsecs)
  else none

/-- The decoded, store-resident record `ProcessExecution`.  String
fields are lists of Unicode scalar values; `timestamp` is
`some (seconds, subsecond nanoseconds)`, or `none` for the
`unwrap_or_else(Utc::now)` fallback, whose value depends on the machine
clock and not on the event. -/
structure ProcessExecution where
  pid : Nat
  timestamp : Option (Int × Nat)
  commandstr : List Nat
  argstr : List Nat
  full_command : List Nat
  deriving DecidableEq, Repr

/-- The argument loop of `ProcessExecution::from_event`: starting at
slot `i` with `fuel` slots remaining, stop at the first slot whose
recorded length is 0, otherwise decode the slot's first `argv_len`
bytes.  Returns `none` when the slice `argvs[i][..argv_len]` would be
out of range (a panic in Rust). -/
def collectArgs (argvs : List Bytes) (offs : List Nat) (i : Nat) :
    Nat → Option (List (List Nat))
  | 0 => some []
  | fuel + 1 =>
    let argv_len := offs.getD i 0
    if argv_len = 0 then some []
    else
      let slot := argvs.getD i []
      if argv_len ≤ slot.length then
        match collectArgs argvs offs (i + 1) fuel with
        | none => none
        | some l => some (utf8Lossy (slot.take argv_len) :: l)
      else none

/-- `ProcessExecution::from_event` (src/task/src/store.rs).
`bootOffset` is the boot-offset duration in nanoseconds (within the
reachable range, chrono duration addition cannot overflow, so it is
exact integer addition).  Returns `none` when a slice operation is out
of range (a panic in Rust). -/
def fromEvent (ev : ExecEvent) (bootOffset : Int) : Option ProcessExecution :=
  let wall : Int := bootOffset + u64AsI64 ev.timestamp
  if ev.command_len ≤ ev.command.length then
    let commandstr := utf8Lossy (ev.command.take ev.command_len)
    match collectArgs ev.argvs ev.argvs_offset 0
        (min ARGV_OFFSET ev.argvs_offset.length) with
    | none => none
    | some args =>
      let argstr := joinSpace args
      let full_command :=
        if argstr = [] then commandstr else commandstr ++ 32 :: argstr
      some { pid := ev.pid
             timestamp := fromTimestamp (numSeconds wall)
               (i64AsU32 (i64Rem ((numNanoseconds wall).getD 0) NANOS_PER_SEC))
             commandstr := commandstr
             argstr := argstr
             full_command := full_command }
  else none

/-- The spec's characterization of the decoded arguments: the slots
strictly before the first slot whose recorded length is 0, each decoded
from its recorded prefix. -/
def specArgsStop (ev : ExecEvent) : List (List Nat) :=
  ((List.range (min ARGV_OFFSET ev.argvs_offset.length)).takeWhile
    (fun i => ev.argvs_offset.getD i 0 != 0)).map
    (fun i => utf8Lossy ((ev.argvs.getD i []).take (ev.argvs_offset.getD i 0)))

/-! ## Execution store (src/task/src/store.rs) -/

/-- The store's FIFO (`VecDeque<ProcessExecution>`), oldest first. -/
abbrev ExecutionStorage := List ProcessExecution

/-- `ExecutionStorage::add_execution`: pop the oldest element when the
FIFO is at capacity, then push the new record at the tail. -/
def add_execution (st : ExecutionStorage) (e : ProcessExecution) : ExecutionStorage :=
  (if MAX_EVENTS ≤ st.length then st.tail else st) ++ [e]

/-- `ExecutionStorage::get_all_executions`: a snapshot of the FIFO. -/
def get_all_executions (st : ExecutionStorage) : List ProcessExecution := st

/-- `ExecutionStorage::get_executions_by_pid`: a snapshot of the
retained records with the given pid, in insertion order. -/
def get_executions_by_pid (st : ExecutionStorage) (pid : Nat) : List ProcessExecution :=
  st.filter (fun e => e.pid == pid)

/-- A sequence of `add_execution` calls, in order. -/
def addAll (st : ExecutionStorage) (es : List ProcessExecution) : ExecutionStorage :=
  es.foldl add_execution st

/-! ## Concrete inputs for witnesses and counterexamples -/

/-- The bytes of "/bin/echo". -/
def echoCmdBytes : Bytes := [47, 98, 105, 110, 47, 101, 99, 104, 111]

/-- The bytes of "hello". -/
def helloBytes : Bytes := [104, 101, 108, 108, 111]

/-- A zeroed, well-formed event with the example pid and timestamp. -/
def sampleEvent : ExecEvent :=
  { pid := 42, timestamp := 1500000123,
    command := List.replicate COMMAND_LEN 0, command_len := 0,
    argvs := List.replicate ARGV_OFFSET (List.replicate ARGV_LEN 0),
    argvs_offset := List.replicate ARGV_OFFSET 0 }

/-- The end-to-end example event: command `/bin/echo`, one argument
`hello`, boot offset 0. -/
def echoEvent : ExecEvent :=
  { pid := 42, timestamp := 1500000123,
    command := echoCmdBytes ++ List.replicate (COMMAND_LEN - 9) 0,
    command_len := 9,
    argvs := (helloBytes ++ List.replicate (ARGV_LEN - 5) 0) ::
             List.replicate 3 (List.replicate ARGV_LEN 0),
    argvs_offset := [5, 0, 0, 0] }

/-- The decoded record of `echoEvent` at boot offset 0. -/
def echoPe : ProcessExecution :=
  { pid := 42, timestamp := some (1, 500000123),
    commandstr := echoCmdBytes, argstr := helloBytes,
    full_command := echoCmdBytes ++ 32 :: helloBytes }

/-- `sampleEvent` with the u64 timestamp `2^63`, which the consumer's
`as i64` cast wraps to a negative number. -/
def hugeTsEvent : ExecEvent := { sampleEvent with timestamp := 2 ^ 63 }

/-- The decoded record of `hugeTsEvent`: its timestamp falls back to
the current clock (`none`). -/
def hugeTsPe : ProcessExecution :=
  { pid := 42, timestamp := none, commandstr := [], argstr := [],
    full_command := [] }

/-- `sampleEvent` corrupted: `command_len` beyond the 64-byte buffer,
as a short or corrupted channel read could produce. -/
def corruptEvent : ExecEvent := { sampleEvent with command_len := 65 }

/-- A minimal stored record with a given pid and one-byte command. -/
def mkPidExec (pid c : Nat) : ProcessExecution :=
  { pid := pid, timestamp := none, commandstr := [c], argstr := [],
    full_command := [c] }

/-- The per-pid grouping example store: pids 1, 2, 1 in order. -/
def pidStore : ExecutionStorage :=
  addAll [] [mkPidExec 1 97, mkPidExec 2 98, mkPidExec 1 99]

/-- The FIFO eviction example: insert pids 0..499 in order, then 9999. -/
def c5Final : ExecutionStorage :=
  addAll [] ((List.range MAX_EVENTS).map (fun i => mkPidExec i 97) ++
    [mkPidExec 9999 97])

/-- A 70-byte command source: longer than the 64-byte buffer. -/
def longSrc : Bytes := List.replicate 70 97

/-- A 40-byte argument source: longer than the 32-byte slot. -/
def longArg : Bytes := List.replicate 40 98

/-- Argument reads: slot 0 reads `longArg`, slot 1 ends the argv. -/
def longArgv : Nat → ArgvRead :=
  fun i => if i = 0 then .str longArg else .null

/-- The event `try_task` publishes for `longSrc` and `longArgv`. -/
def longEvent : ExecEvent :=
  { pid := 1, timestamp := 2,
    command := List.replicate 64 97, command_len := 64,
    argvs := List.replicate 32 98 :: List.replicate 3 (List.replicate 32 0),
    argvs_offset := [32, 0, 0, 0] }

/-! ## Theorems -/

theorem natToLE_length (w n : Nat) : (natToLE w n).length = w := by
  induction w generalizing n with
  | zero => rfl
  | succ w ih => simp [natToLE, ih]

theorem leToNat_natToLE (w n : Nat) : leToNat (natToLE w n) = n % 256 ^ w := by
  induction w generalizing n with
  | zero => simp [natToLE, leToNat, Nat.mod_one]
  | succ w ih =>
    simp only [natToLE, leToNat, ih, pow_succ]
    rw [mul_comm (256 ^ w) 256, Nat.mod_mul]

theorem leToNat_natToLE_of_lt {w n : Nat} (h : n < 256 ^ w) :
    leToNat (natToLE w n) = n := by
  rw [leToNat_natToLE, Nat.mod_eq_of_lt h]

/-- Peel one chunk of known length off the front of a `drop`. -/
theorem drop_chunk {α : Type} {x r : List α} {n m k : Nat}
    (hx : x.length = n) (hk : k = n + m) :
    (x ++ r).drop k = r.drop m := by
  subst hk
  rw [← List.drop_drop, List.drop_left' hx]

theorem decode_encode_execEvent (ev : ExecEvent) (h : ev.WF) :
    decodeExecEvent (encodeExecEvent ev) = ev := by
  obtain ⟨pid, ts, cmd, clen, argvs, offs⟩ := ev
  simp only [ExecEvent.WF] at h
  obtain ⟨hpid, hts, hcmd, -, hclen, hargvs, hargl, hoffl, hoffb⟩ := h
  obtain ⟨a0, a1, a2, a3, hA⟩ : ∃ a0 a1 a2 a3, argvs = [a0, a1, a2, a3] := by
    rcases argvs with _ | ⟨x0, _ | ⟨x1, _ | ⟨x2, _ | ⟨x3, _ | ⟨x4, t⟩⟩⟩⟩⟩ <;>
      simp_all [ARGV_OFFSET]
  obtain ⟨o0, o1, o2, o3, hO⟩ : ∃ o0 o1 o2 o3, offs = [o0, o1, o2, o3] := by
    rcases offs with _ | ⟨x0, _ | ⟨x1, _ | ⟨x2, _ | ⟨x3, _ | ⟨x4, t⟩⟩⟩⟩⟩ <;>
      simp_all [ARGV_OFFSET]
  subst hA hO
  have ha0 : a0.length = 32 := (hargl a0 (by simp)).1
  have ha1 : a1.length = 32 := (hargl a1 (by simp)).1
  have ha2 : a2.length = 32 := (hargl a2 (by simp)).1
  have ha3 : a3.length = 32 := (hargl a3 (by simp)).1
  have hcmd64 : cmd.length = 64 := by simpa [COMMAND_LEN] using hcmd
  have e4 : (256 : Nat) ^ 4 = 2 ^ 32 := by norm_num
  have e8 : (256 : Nat) ^ 8 = 2 ^ 64 := by norm_num
  have hpid' : pid < 256 ^ 4 := by rw [e4]; exact hpid
  have hts' : ts < 256 ^ 8 := by rw [e8]; exact hts
  have hclen' : clen < 256 ^ 8 := by rw [e8]; exact hclen
  have ho0 : o0 < 256 ^ 8 := by rw [e8]; exact hoffb o0 (by simp)
  have ho1 : o1 < 256 ^ 8 := by rw [e8]; exact hoffb o1 (by simp)
  have ho2 : o2 < 256 ^ 8 := by rw [e8]; exact hoffb o2 (by simp)
  have ho3 : o3 < 256 ^ 8 := by rw [e8]; exact hoffb o3 (by simp)
  have h64 : (64 : Nat) = 32 + 32 := by norm_num
  have h96 : (96 : Nat) = 32 + 64 := by norm_num
  have h128 : (128 : Nat) = 32 + 96 := by norm_num
  have h16 : (16 : Nat) = 8 + 8 := by norm_num
  have h24 : (24 : Nat) = 8 + 16 := by norm_num
  simp only [encodeExecEvent, decodeExecEvent, List.flatten, List.map,
    List.append_nil, List.append_assoc]
  rw [List.take_left' (natToLE_length 4 pid)]
  rw [List.drop_left' (natToLE_length 4 pid)]
  rw [List.drop_left' (List.length_replicate 4 (0 : Nat))]
  rw [List.take_left' (natToLE_length 8 ts)]
  rw [List.drop_left' (natToLE_length 8 ts)]
  rw [List.take_left' hcmd64]
  rw [List.drop_left' hcmd64]
  rw [List.take_left' (natToLE_length 8 clen)]
  rw [List.drop_left' (natToLE_length 8 clen)]
  rw [List.take_left' ha0]
  rw [drop_chunk ha0 h64]
  rw [drop_chunk ha0 h96]
  rw [drop_chunk ha0 h128]
  rw [List.drop_left' ha0]
  rw [List.take_left' ha1]
  rw [drop_chunk ha1 h64]
  rw [drop_chunk ha1 h96]
  rw [List.drop_left' ha1]
  rw [List.take_left' ha2]
  rw [drop_chunk ha2 h64]
  rw [List.drop_left' ha2]
  rw [List.take_left' ha3]
  rw [List.drop_left' ha3]
  rw [List.take_left' (natToLE_length 8 o0)]
  rw [drop_chunk (natToLE_length 8 o0) h16]
  rw [drop_chunk (natToLE_length 8 o0) h24]
  rw [List.drop_left' (natToLE_length 8 o0)]
  rw [List.take_left' (natToLE_length 8 o1)]
  rw [drop_chunk (natToLE_length 8 o1) h16]
  rw [List.drop_left' (natToLE_length 8 o1)]
  rw [List.take_left' (natToLE_length 8 o2)]
  rw [List.drop_left' (natToLE_length 8 o2)]
  rw [List.take_of_length_le (le_of_eq (natToLE_length 8 o3))]
  rw [leToNat_natToLE_of_lt hpid', leToNat_natToLE_of_lt hts',
      leToNat_natToLE_of_lt hclen', leToNat_natToLE_of_lt ho0,
      leToNat_natToLE_of_lt ho1, leToNat_natToLE_of_lt ho2,
      leToNat_natToLE_of_lt ho3]

/-- C1: the kernel-side and userspace `ExecEvent` declarations have
identical field order, field sizes and `#[repr(C)]` offsets, and the
bytes the producer writes for any well-formed event decode to the same
record on the consumer side. -/
theorem c1_wire_format_agreement :
    kernelExecEventFields = userExecEventFields ∧
    reprCOffsets kernelExecEventFields 0 = reprCOffsets userExecEventFields 0 ∧
    ∀ ev : ExecEvent, ev.WF → decodeExecEvent (encodeExecEvent ev) = ev :=
  ⟨rfl, rfl, decode_encode_execEvent⟩

/-- Witness for C1 at a concrete well-formed event. -/
theorem c1_wire_format_agreement_witness :
    sampleEvent.WF ∧ decodeExecEvent (encodeExecEvent sampleEvent) = sampleEvent :=
  ⟨by decide, c1_wire_format_agreement.2.2 sampleEvent (by decide)⟩

/-! ## Store theorems -/

theorem add_execution_length_le (st : ExecutionStorage) (e : ProcessExecution)
    (h : st.length ≤ MAX_EVENTS) :
    (add_execution st e).length ≤ MAX_EVENTS := by
  unfold add_execution MAX_EVENTS at *
  split <;> simp [List.length_tail] <;> omega

theorem addAll_length_le (es : List ProcessExecution) :
    ∀ st : ExecutionStorage, st.length ≤ MAX_EVENTS →
      (addAll st es).length ≤ MAX_EVENTS := by
  induction es with
  | nil => intro st h; simpa [addAll] using h
  | cons e es ih =>
    intro st h
    simpa [addAll] using ih (add_execution st e) (add_execution_length_le st e h)

/-- C4: `get_all_executions` never returns more than `MAX_EVENTS`
elements, for any sequence of `add_execution` calls from a new store. -/
theorem c4_fifo_bound (es : List ProcessExecution) :
    (get_all_executions (addAll [] es)).length ≤ MAX_EVENTS :=
  addAll_length_le es [] (by simp [MAX_EVENTS])

theorem add_execution_of_lt (st : ExecutionStorage) (e : ProcessExecution)
    (h : st.length < MAX_EVENTS) : add_execution st e = st ++ [e] := by
  unfold add_execution
  rw [if_neg (by omega)]

theorem add_execution_at_capacity (st : ExecutionStorage) (e : ProcessExecution)
    (h : MAX_EVENTS ≤ st.length) : add_execution st e = st.tail ++ [e] := by
  unfold add_execution
  rw [if_pos h]

theorem addAll_of_le (es : List ProcessExecution) :
    ∀ st : ExecutionStorage, st.length + es.length ≤ MAX_EVENTS →
      addAll st es = st ++ es := by
  induction es with
  | nil => intro st h; simp [addAll]
  | cons e es ih =>
    intro st h
    have h1 : add_execution st e = st ++ [e] :=
      add_execution_of_lt st e (by simp at h; omega)
    have h2 : addAll st (e :: es) = addAll (st ++ [e]) es := by
      simp [addAll, h1]
    rw [h2, ih (st ++ [e]) (by simp at h ⊢; omega)]
    simp

theorem addAll_append (st : ExecutionStorage) (es fs : List ProcessExecution) :
    addAll st (es ++ fs) = addAll (addAll st es) fs := by
  simp [addAll, List.foldl_append]

/-- C5: after inserting 500 executions with pids 0..499 in order and
then one with pid 9999, the store excludes pid 0, includes pid 9999,
and has exactly 500 elements. -/
theorem c5_fifo_eviction :
    (get_all_executions c5Final).all (fun e => e.pid != 0) = true ∧
    mkPidExec 9999 97 ∈ get_all_executions c5Final ∧
    (get_all_executions c5Final).length = MAX_EVENTS := by
  have h1 : addAll [] ((List.range MAX_EVENTS).map (fun i => mkPidExec i 97)) =
      (List.range MAX_EVENTS).map (fun i => mkPidExec i 97) := by
    simpa using addAll_of_le ((List.range MAX_EVENTS).map (fun i => mkPidExec i 97)) []
      (by simp)
  have h2 : c5Final =
      ((List.range MAX_EVENTS).map (fun i => mkPidExec i 97)).tail ++
        [mkPidExec 9999 97] := by
    unfold c5Final
    rw [addAll_append, h1]
    simp only [addAll, List.foldl_cons, List.foldl_nil]
    exact add_execution_at_capacity _ _ (by simp)
  have h3 : ((List.range MAX_EVENTS).map (fun i => mkPidExec i 97)).tail =
      (List.range (MAX_EVENTS - 1)).map (fun i => mkPidExec (i + 1) 97) := by
    rw [show MAX_EVENTS = (MAX_EVENTS - 1) + 1 by simp [MAX_EVENTS],
        List.range_succ_eq_map]
    simp [Function.comp, Nat.succ_eq_add_one]
  refine ⟨?_, ?_, ?_⟩
  · rw [get_all_executions, h2, h3]
    simp [List.all_eq_true, mkPidExec]
  · rw [get_all_executions, h2]
    simp
  · rw [get_all_executions, h2, h3]
    simp [MAX_EVENTS]

/-- C6: `get_executions_by_pid` returns exactly the retained records
with that pid, in insertion order, and the empty list when none are
retained; in the [1, 2, 1] example it returns the two pid-1 records in
insertion order, the single pid-2 record, and nothing for pid 7. -/
theorem c6_pid_query :
    (∀ (st : ExecutionStorage) (p : Nat),
      (get_executions_by_pid st p).Sublist (get_all_executions st) ∧
      (∀ e ∈ get_executions_by_pid st p, e.pid = p) ∧
      (∀ e ∈ get_all_executions st, e.pid = p → e ∈ get_executions_by_pid st p)) ∧
    get_executions_by_pid pidStore 1 = [mkPidExec 1 97, mkPidExec 1 99] ∧
    get_executions_by_pid pidStore 2 = [mkPidExec 2 98] ∧
    get_executions_by_pid pidStore 7 = [] := by
  refine ⟨fun st p => ⟨List.filter_sublist st, ?_, ?_⟩, by decide, by decide, by decide⟩
  · intro e he
    have := (List.mem_filter.mp he).2
    simpa using this
  · intro e he hp
    exact List.mem_filter.mpr ⟨he, by simpa using hp⟩

/-- Witness for C6 at the concrete [1, 2, 1] store. -/
theorem c6_pid_query_witness :
    (get_executions_by_pid pidStore 1).Sublist (get_all_executions pidStore) ∧
    (mkPidExec 1 97).pid = 1 ∧ mkPidExec 1 97 ∈ get_executions_by_pid pidStore 1 :=
  ⟨(c6_pid_query.1 pidStore 1).1,
   (c6_pid_query.1 pidStore 1).2.1 (mkPidExec 1 97) (by decide),
   (c6_pid_query.1 pidStore 1).2.2 (mkPidExec 1 97) (by decide) (by decide)⟩

/-! ## Capture-program theorems -/

/-- C7: when the copied command bytes, zero-padded to the 64-byte key
width, are present in the exclusion table, `try_task` publishes nothing
and returns success 0 — whatever the outcome of every argument read,
since the arguments are never consulted. -/
theorem c7_exclusion_discard (pid ts : Nat) (src : Bytes)
    (argvBase : Except Int Unit) (argv : Nat → ArgvRead) (excluded : List Bytes)
    (h : src.take COMMAND_LEN ++
      List.replicate (COMMAND_LEN - (src.take COMMAND_LEN).length) 0 ∈ excluded) :
    try_task pid ts (.ok src) argvBase argv excluded = .ok (0, []) := by
  have hle : (src.take COMMAND_LEN).length ≤ COMMAND_LEN := by
    simp [List.length_take]
  have hexc : is_excluded (src.take COMMAND_LEN) (src.take COMMAND_LEN).length
      excluded = true := by
    simp only [is_excluded, min_eq_left hle, List.take_length]
    exact decide_eq_true h
  simp only [try_task, bpfProbeReadUserStrBytes]
  rw [hexc]
  simp

/-- Witness for C7: the empty command is excluded even though every
argument read fails. -/
theorem c7_exclusion_discard_witness :
    ([] : Bytes).take COMMAND_LEN ++
      List.replicate (COMMAND_LEN - (([] : Bytes).take COMMAND_LEN).length) 0 ∈
      [List.replicate COMMAND_LEN (0 : Nat)] ∧
    try_task 1 2 (.ok []) (.error 5) (fun _ => .ptrErr 7)
      [List.replicate COMMAND_LEN (0 : Nat)] = .ok (0, []) :=
  ⟨by decide,
   c7_exclusion_discard 1 2 [] (.error 5) (fun _ => .ptrErr 7)
     [List.replicate COMMAND_LEN (0 : Nat)] (by decide)⟩

/-- The capture loop records, at position `k`, the captured slot of the
`k`-th argv read when the reads up to `k` are all strings. -/
theorem argLoop_str_processed (argv : Nat → ArgvRead) :
    ∀ (fuel k i : Nat) (slots : List (Bytes × Nat)) (s : Bytes),
      argLoop argv i fuel = .ok slots → k < fuel →
      (∀ j, j < k → ∃ t, argv (i + j) = .str t) →
      argv (i + k) = .str s →
      slots[k]? = some
        (s.take ARGV_LEN ++ List.replicate (ARGV_LEN - (s.take ARGV_LEN).length) 0,
         if ARGV_LEN ≤ (s.take ARGV_LEN).length then ARGV_LEN
         else (s.take ARGV_LEN).length) := by
  intro fuel
  induction fuel with
  | zero => intro k i slots s h hk; omega
  | succ fuel ih =>
    intro k i slots s h hk hall hs
    cases k with
    | zero =>
      rw [Nat.add_zero] at hs
      rw [argLoop, hs] at h
      simp only [argSlot, bpfProbeReadUserStrBytes] at h
      cases hrec : argLoop argv (i + 1) fuel with
      | error e => rw [hrec] at h; cases h
      | ok l =>
        rw [hrec] at h
        cases h
        simp
    | succ k' =>
      obtain ⟨t0, ht0⟩ := hall 0 (Nat.succ_pos k')
      rw [Nat.add_zero] at ht0
      rw [argLoop, ht0] at h
      simp only [argSlot, bpfProbeReadUserStrBytes] at h
      cases hrec : argLoop argv (i + 1) fuel with
      | error e => rw [hrec] at h; cases h
      | ok l =>
        rw [hrec] at h
        cases h
        have hall' : ∀ j, j < k' → ∃ t, argv (i + 1 + j) = .str t := by
          intro j hj
          have harith : i + 1 + j = i + (j + 1) := by omega
          rw [harith]
          exact hall (j + 1) (by omega)
        have hs' : argv (i + 1 + k') = .str s := by
          have harith : i + 1 + k' = i + (k' + 1) := by omega
          rw [harith]; exact hs
        simpa using ih k' (i + 1) l s hrec (by omega) hall' hs'

/-- C2: when the source command path or an argument string is longer
than its fixed buffer (64 bytes for the command, 32 bytes per slot),
the published event records exactly the first `capacity` bytes of the
source and a recorded length equal to the capacity. -/
theorem c2_truncation (pid ts : Nat) (src : Bytes) (argvBase : Except Int Unit)
    (argv : Nat → ArgvRead) (excluded : List Bytes) (ev : ExecEvent)
    (hrun : try_task pid ts (.ok src) argvBase argv excluded = .ok (0, [ev])) :
    (COMMAND_LEN < src.length →
      ev.command = src.take COMMAND_LEN ∧ ev.command_len = COMMAND_LEN) ∧
    (∀ i s, i < ARGV_OFFSET → (∀ j, j < i → ∃ t, argv j = .str t) →
      argv i = .str s → ARGV_LEN < s.length →
      ev.argvs.getD i [] = s.take ARGV_LEN ∧
      ev.argvs_offset.getD i 0 = ARGV_LEN) := by
  simp only [try_task, bpfProbeReadUserStrBytes] at hrun
  cases hexc : is_excluded (src.take COMMAND_LEN) (src.take COMMAND_LEN).length
      excluded with
  | true => rw [hexc] at hrun; simp at hrun
  | false =>
    rw [hexc] at hrun
    simp only [Bool.false_eq_true, if_false] at hrun
    cases argvBase with
    | error e => cases hrun
    | ok u =>
      cases hloop : argLoop argv 0 ARGV_OFFSET with
      | error e => rw [hloop] at hrun; cases hrun
      | ok slots =>
        rw [hloop] at hrun
        simp only [Except.ok.injEq, Prod.mk.injEq, List.cons.injEq, and_true,
          true_and] at hrun
        obtain rfl := hrun
        constructor
        · intro hlong
          have hlen : (src.take COMMAND_LEN).length = COMMAND_LEN := by
            simp [List.length_take]; omega
          constructor
          · simp [hlen]
          · simp [hlen]
        · intro i s hi hall hs hlong
          have hget := argLoop_str_processed argv ARGV_OFFSET i 0 slots s hloop hi
            (by simpa using hall) (by simpa using hs)
          have hslen : (s.take ARGV_LEN).length = ARGV_LEN := by
            simp [List.length_take]; omega
          rw [hslen] at hget
          simp only [le_refl, if_pos, Nat.sub_self, List.replicate_zero,
            List.append_nil] at hget
          have hilt : i < slots.length := by
            by_contra hge
            rw [List.getElem?_eq_none (by omega)] at hget
            cases hget
          constructor
          · show (slots.map Prod.fst ++
              List.replicate (ARGV_OFFSET - slots.length)
                (List.replicate ARGV_LEN 0)).getD i [] = s.take ARGV_LEN
            rw [List.getD_eq_getElem?_getD, List.getElem?_append,
              if_pos (show i < (slots.map Prod.fst).length by simpa using hilt),
              List.getElem?_map, hget]
            rfl
          · show (slots.map Prod.snd ++
              List.replicate (ARGV_OFFSET - slots.length) 0).getD i 0 = ARGV_LEN
            rw [List.getD_eq_getElem?_getD, List.getElem?_append,
              if_pos (show i < (slots.map Prod.snd).length by simpa using hilt),
              List.getElem?_map, hget]
            rfl

/-- Witness for C2: a 70-byte command and a 40-byte argument are
truncated to 64 and 32 bytes, and the recorded lengths equal the
capacities. -/
theorem c2_truncation_witness :
    COMMAND_LEN < longSrc.length ∧ ARGV_LEN < longArg.length ∧
    longEvent.command = longSrc.take COMMAND_LEN ∧
    longEvent.command_len = COMMAND_LEN ∧
    longEvent.argvs.getD 0 [] = longArg.take ARGV_LEN ∧
    longEvent.argvs_offset.getD 0 0 = ARGV_LEN := by
  have h := c2_truncation 1 2 longSrc (.ok ()) longArgv [] longEvent (by rfl)
  exact ⟨by decide, by decide, (h.1 (by decide)).1, (h.1 (by decide)).2,
    (h.2 0 longArg (by decide) (fun j hj => absurd hj (Nat.not_lt_zero j))
      (by decide) (by decide)).1,
    (h.2 0 longArg (by decide) (fun j hj => absurd hj (Nat.not_lt_zero j))
      (by decide) (by decide)).2⟩

/-! ## Consumer theorems -/

/-- A nonempty byte string decodes to a nonempty string. -/
theorem utf8Lossy_ne_nil (b : Nat) (bs : Bytes) : utf8Lossy (b :: bs) ≠ [] := by
  rw [utf8Lossy, List.length_cons, utf8LossyAux]
  repeat' split
  all_goals exact List.cons_ne_nil _ _

/-- Inversion of `fromEvent`: when decoding succeeds, the record's
fields are the decoded command, the joined collected arguments, and the
correlated timestamp. -/
theorem fromEvent_some (ev : ExecEvent) (off : Int) (pe : ProcessExecution)
    (h : fromEvent ev off = some pe) :
    ∃ args, collectArgs ev.argvs ev.argvs_offset 0
        (min ARGV_OFFSET ev.argvs_offset.length) = some args ∧
      pe.commandstr = utf8Lossy (ev.command.take ev.command_len) ∧
      pe.argstr = joinSpace args ∧
      pe.full_command =
        (if pe.argstr = [] then pe.commandstr else pe.commandstr ++ 32 :: pe.argstr) ∧
      pe.pid = ev.pid ∧
      pe.timestamp = fromTimestamp (numSeconds (off + u64AsI64 ev.timestamp))
        (i64AsU32 (i64Rem ((numNanoseconds (off + u64AsI64 ev.timestamp)).getD 0)
          NANOS_PER_SEC)) := by
  unfold fromEvent at h
  split at h
  · cases hc : collectArgs ev.argvs ev.argvs_offset 0
        (min ARGV_OFFSET ev.argvs_offset.length) with
    | none => rw [hc] at h; cases h
    | some args =>
      rw [hc] at h
      simp only [Option.some.injEq] at h
      obtain rfl := h.symm
      exact ⟨args, rfl, rfl, rfl, rfl, rfl, rfl⟩
  · cases h

/-- The argument loop of the consumer collects exactly the slots before
the first zero recorded length, each decoded from its recorded prefix. -/
theorem collectArgs_eq (argvs : List Bytes) (offs : List Nat) :
    ∀ (fuel i : Nat) (l : List (List Nat)),
      collectArgs argvs offs i fuel = some l →
      l = ((List.range' i fuel).takeWhile (fun k => offs.getD k 0 != 0)).map
            (fun k => utf8Lossy ((argvs.getD k []).take (offs.getD k 0))) := by
  intro fuel
  induction fuel with
  | zero =>
    intro i l h
    simp only [collectArgs, Option.some.injEq] at h
    simp [← h]
  | succ fuel ih =>
    intro i l h
    rw [List.range'_succ]
    simp only [collectArgs] at h
    by_cases h0 : offs.getD i 0 = 0
    · rw [if_pos h0] at h
      simp only [Option.some.injEq] at h
      rw [List.takeWhile_cons_of_neg (by rw [h0]; decide)]
      rw [← h]
      simp
    · rw [if_neg h0] at h
      split at h
      · cases hrec : collectArgs argvs offs (i + 1) fuel with
        | none => rw [hrec] at h; cases h
        | some l' =>
          rw [hrec] at h
          simp only [Option.some.injEq] at h
          rw [List.takeWhile_cons_of_pos (by simpa using h0)]
          simp only [List.map_cons, ← h]
          rw [ih (i + 1) l' hrec]
      · cases h

/-- Every argument the consumer collects is a nonempty string. -/
theorem collectArgs_ne_nil (argvs : List Bytes) (offs : List Nat) :
    ∀ (fuel i : Nat) (l : List (List Nat)),
      collectArgs argvs offs i fuel = some l → ∀ a ∈ l, a ≠ [] := by
  intro fuel
  induction fuel with
  | zero =>
    intro i l h
    simp only [collectArgs, Option.some.injEq] at h
    simp [← h]
  | succ fuel ih =>
    intro i l h
    simp only [collectArgs] at h
    by_cases h0 : offs.getD i 0 = 0
    · rw [if_pos h0] at h
      simp only [Option.some.injEq] at h
      simp [← h]
    · rw [if_neg h0] at h
      split at h
      · cases hrec : collectArgs argvs offs (i + 1) fuel with
        | none => rw [hrec] at h; cases h
        | some l' =>
          rw [hrec] at h
          simp only [Option.some.injEq] at h
          intro a ha
          rw [← h] at ha
          rcases List.mem_cons.mp ha with rfl | htail
          · have hpos : 0 < (argvs.getD i []).length := by
              rename_i hle
              omega
            cases htake : (argvs.getD i []).take (offs.getD i 0) with
            | nil =>
              have : ((argvs.getD i []).take (offs.getD i 0)).length = 0 := by
                rw [htake]; rfl
              rw [List.length_take] at this
              omega
            | cons b bs =>
              exact utf8Lossy_ne_nil b bs
          · exact ih (i + 1) l' hrec a htail
      · cases h

/-- Joining nonempty strings of a nonempty list is nonempty. -/
theorem joinSpace_ne_nil (l : List (List Nat)) (hne : l ≠ [])
    (hel : ∀ a ∈ l, a ≠ []) : joinSpace l ≠ [] := by
  match l with
  | [] => exact absurd rfl hne
  | [x] => simpa [joinSpace] using hel x (by simp)
  | x :: y :: tl =>
    have hx : x ≠ [] := hel x (by simp)
    simp only [joinSpace]
    intro hcontra
    rcases List.append_eq_nil.mp hcontra with ⟨hx0, -⟩
    exact hx hx0

/-- A `takeWhile` over consecutive integers stops no later than the
first index where the predicate fails. -/
theorem length_takeWhile_range'_le (p : Nat → Bool) :
    ∀ (n i j : Nat), j < n → p (i + j) = false →
      ((List.range' i n).takeWhile p).length ≤ j := by
  intro n
  induction n with
  | zero => intro i j hj; omega
  | succ n ih =>
    intro i j hj hp
    rw [List.range'_succ]
    cases hpi : p i with
    | false => rw [List.takeWhile_cons_of_neg (by simp [hpi])]; simp
    | true =>
      cases j with
      | zero => rw [Nat.add_zero] at hp; rw [hpi] at hp; cases hp
      | succ j' =>
        rw [List.takeWhile_cons_of_pos hpi]
        simp only [List.length_cons]
        have := ih (i + 1) j' (by omega)
          (by rw [show i + 1 + j' = i + (j' + 1) by omega]; exact hp)
        omega

/-- C8: the decoded `argstr` is the join of exactly the slots before
the first zero recorded length — no argument at or after the first
zero-length slot is included. -/
theorem c8_argument_stop (ev : ExecEvent) (off : Int) (pe : ProcessExecution)
    (hrun : fromEvent ev off = some pe) :
    pe.argstr = joinSpace (specArgsStop ev) ∧
    ∀ j, j < min ARGV_OFFSET ev.argvs_offset.length →
      ev.argvs_offset.getD j 0 = 0 → (specArgsStop ev).length ≤ j := by
  obtain ⟨args, hc, -, hargstr, -, -, -⟩ := fromEvent_some ev off pe hrun
  have hargs := collectArgs_eq ev.argvs ev.argvs_offset _ 0 args hc
  constructor
  · rw [hargstr, hargs, specArgsStop, List.range_eq_range']
  · intro j hj h0
    rw [specArgsStop, List.range_eq_range', List.length_map]
    exact length_takeWhile_range'_le _ _ 0 j hj (by simpa using h0)

/-- Witness for C8 at the `/bin/echo hello` example event. -/
theorem c8_argument_stop_witness :
    echoPe.argstr = joinSpace (specArgsStop echoEvent) ∧
    (specArgsStop echoEvent).length ≤ 1 :=
  ⟨(c8_argument_stop echoEvent 0 echoPe (by decide)).1,
   (c8_argument_stop echoEvent 0 echoPe (by decide)).2 1 (by decide) (by decide)⟩

/-- C9: `full_command` is `commandstr` alone when no arguments were
captured, and `commandstr ++ " " ++ argstr` otherwise. -/
theorem c9_full_command (ev : ExecEvent) (off : Int) (pe : ProcessExecution)
    (hrun : fromEvent ev off = some pe) :
    (specArgsStop ev = [] → pe.full_command = pe.commandstr) ∧
    (specArgsStop ev ≠ [] → pe.full_command = pe.commandstr ++ 32 :: pe.argstr) := by
  obtain ⟨args, hc, -, hargstr, hfull, -, -⟩ := fromEvent_some ev off pe hrun
  have hargs := collectArgs_eq ev.argvs ev.argvs_offset _ 0 args hc
  have hspec : args = specArgsStop ev := by
    rw [hargs, specArgsStop, List.range_eq_range']
  constructor
  · intro h0
    have hempty : pe.argstr = [] := by
      rw [hargstr, hspec, h0]
      rfl
    rw [hfull, if_pos hempty]
  · intro hne
    have hne' : args ≠ [] := by rw [hspec]; exact hne
    have hnonempty : pe.argstr ≠ [] := by
      rw [hargstr]
      exact joinSpace_ne_nil args hne' (collectArgs_ne_nil ev.argvs ev.argvs_offset _ 0 args hc)
    rw [hfull, if_neg hnonempty]

/-- Witness for C9 at the `/bin/echo hello` example event. -/
theorem c9_full_command_witness :
    specArgsStop echoEvent ≠ [] ∧
    echoPe.full_command = echoPe.commandstr ++ 32 :: echoPe.argstr ∧
    echoPe.commandstr = echoCmdBytes ∧ echoPe.argstr = helloBytes :=
  ⟨by decide,
   (c9_full_command echoEvent 0 echoPe (by decide)).2 (by decide),
   by decide, by decide⟩

/-- C3 (amended): for a nonnegative boot offset O and a monotonic
timestamp T below `2^63` whose sum stays within the signed 64-bit
nanosecond range, the decoded wall-clock timestamp equals O + T to
nanosecond precision. -/
theorem c3_timestamp_roundtrip (O : Int) (T : Nat) (ev : ExecEvent)
    (pe : ProcessExecution)
    (hO : 0 ≤ O) (hT : T < 2 ^ 63) (hsum : O + (T : Int) ≤ I64_MAX)
    (hts : ev.timestamp = T) (hrun : fromEvent ev O = some pe) :
    ∃ secs : Int, ∃ nsecs : Nat, pe.timestamp = some (secs, nsecs) ∧
      secs * NANOS_PER_SEC + (nsecs : Int) = O + (T : Int) ∧
      nsecs < 1000000000 := by
  obtain ⟨args, -, -, -, -, -, hpts⟩ := fromEvent_some ev O pe hrun
  rw [hts] at hpts
  have hcast : u64AsI64 T = (T : Int) := by
    unfold u64AsI64
    rw [if_pos hT]
  rw [hcast] at hpts
  set wall := O + (T : Int) with hwall
  have h0w : 0 ≤ wall := add_nonneg hO (Int.natCast_nonneg T)
  have hnn : numNanoseconds wall = some wall := by
    unfold numNanoseconds
    rw [if_pos ⟨le_trans (by norm_num [I64_MIN]) h0w, hsum⟩]
  rw [hnn] at hpts
  simp only [Option.getD_some] at hpts
  have hpos : (0 : Int) < NANOS_PER_SEC := by norm_num [NANOS_PER_SEC]
  have htmod0 : 0 ≤ wall.tmod NANOS_PER_SEC := Int.tmod_nonneg _ h0w
  have htmodlt : wall.tmod NANOS_PER_SEC < NANOS_PER_SEC :=
    Int.tmod_lt_of_pos wall hpos
  have hu32 : i64AsU32 (i64Rem wall NANOS_PER_SEC) =
      (wall.tmod NANOS_PER_SEC).toNat := by
    unfold i64AsU32 i64Rem
    rw [Int.emod_eq_of_lt htmod0
      (lt_trans htmodlt (by norm_num [NANOS_PER_SEC]))]
  have hdiv0 : 0 ≤ numSeconds wall := by
    unfold numSeconds
    rw [Int.tdiv_eq_ediv h0w (le_of_lt hpos)]
    exact Int.ediv_nonneg h0w (le_of_lt hpos)
  have hdivle : numSeconds wall ≤ 8210266876799 := by
    unfold numSeconds
    rw [Int.tdiv_eq_ediv h0w (le_of_lt hpos)]
    calc wall / NANOS_PER_SEC ≤ I64_MAX / NANOS_PER_SEC :=
          Int.ediv_le_ediv hpos hsum
      _ ≤ 8210266876799 := by norm_num [I64_MAX, NANOS_PER_SEC]
  refine ⟨numSeconds wall, (wall.tmod NANOS_PER_SEC).toNat, ?_, ?_, ?_⟩
  · have hns2 : (wall.tmod NANOS_PER_SEC).toNat < 2000000000 := by
      rw [Int.toNat_lt htmod0]
      exact lt_trans htmodlt (by norm_num [NANOS_PER_SEC])
    rw [hpts, hu32]
    unfold fromTimestamp
    rw [if_pos ⟨hns2, le_trans (by norm_num) hdiv0, hdivle⟩]
  · rw [Int.toNat_of_nonneg htmod0]
    unfold numSeconds
    rw [mul_comm]
    exact Int.tdiv_add_tmod wall NANOS_PER_SEC
  · rw [Int.toNat_lt htmod0]
    exact lt_of_lt_of_le htmodlt (by norm_num [NANOS_PER_SEC])

/-- Witness for C3 at the example: boot offset 0 and T = 1500000123
give whole seconds 1 and sub-second nanoseconds 500000123. -/
theorem c3_timestamp_roundtrip_witness :
    echoPe.timestamp = some (1, 500000123) ∧
    ∃ secs : Int, ∃ nsecs : Nat, echoPe.timestamp = some (secs, nsecs) ∧
      secs * NANOS_PER_SEC + (nsecs : Int) = 0 + ((1500000123 : Nat) : Int) ∧
      nsecs < 1000000000 :=
  ⟨by decide,
   c3_timestamp_roundtrip 0 1500000123 echoEvent echoPe (by decide) (by decide)
     (by decide) (by decide) (by decide)⟩

/-- Counterexample for C3 as stated: at boot offset 0 and the u64
timestamp T = `2^63` (valid per the claim, which quantifies over all
u64 nanosecond counts), the `as i64` cast wraps, the nanosecond field
computation overflows chrono's accepted range, and the code stores the
current clock instead of O + T — the decoded timestamp is the fallback
(`none`), not a pair summing to O + T. -/
theorem c3_u64_wrap_counterexample :
    fromEvent hugeTsEvent 0 = some hugeTsPe ∧
    hugeTsPe.timestamp = none ∧
    ¬ ∃ secs : Int, ∃ nsecs : Nat, hugeTsPe.timestamp = some (secs, nsecs) ∧
      secs * NANOS_PER_SEC + (nsecs : Int) = 0 + (hugeTsEvent.timestamp : Int) := by
  refine ⟨by decide, rfl, ?_⟩
  rintro ⟨s, n, h, -⟩
  simp [hugeTsPe] at h

/-- The consumer's argument loop cannot fail when every recorded length
is within its slot's buffer. -/
theorem collectArgs_isSome (argvs : List Bytes) (offs : List Nat)
    (hb : ∀ i : Nat, offs.getD i 0 ≤ (argvs.getD i []).length) :
    ∀ (fuel i : Nat), (collectArgs argvs offs i fuel).isSome = true := by
  intro fuel
  induction fuel with
  | zero => intro i; simp [collectArgs]
  | succ fuel ih =>
    intro i
    simp only [collectArgs]
    by_cases h0 : offs.getD i 0 = 0
    · rw [if_pos h0]; rfl
    · rw [if_neg h0, if_pos (hb i)]
      cases hrec : collectArgs argvs offs (i + 1) fuel with
      | none =>
        have hsome := ih (i + 1)
        rw [hrec] at hsome
        cases hsome
      | some l => simp

/-- C10: under the wire-format invariant (`command_len ≤ 64` and every
`argvs_offset[i] ≤ 32`), every slice `from_event` takes is in range and
decoding completes; without it (`command_len > 64`), the slicing is out
of range. -/
theorem c10_from_event_safety :
    (∀ (ev : ExecEvent) (off : Int), ev.WF → ev.command_len ≤ COMMAND_LEN →
      (∀ o ∈ ev.argvs_offset, o ≤ ARGV_LEN) →
      (fromEvent ev off).isSome = true) ∧
    fromEvent corruptEvent 0 = none := by
  constructor
  · intro ev off hwf hcl hoffs
    obtain ⟨-, -, hcmd, -, -, hargvs, hargl, hoffl, -⟩ := hwf
    have hb : ∀ i : Nat,
        ev.argvs_offset.getD i 0 ≤ (ev.argvs.getD i []).length := by
      intro i
      by_cases hi : i < ev.argvs_offset.length
      · have hmem : ev.argvs_offset.getD i 0 ∈ ev.argvs_offset := by
          rw [List.getD_eq_getElem?_getD, List.getElem?_eq_getElem hi,
            Option.getD_some]
          exact List.getElem_mem hi
        have hia : i < ev.argvs.length := by
          rw [hargvs]
          rw [hoffl] at hi
          exact hi
        have hmem2 : ev.argvs.getD i [] ∈ ev.argvs := by
          rw [List.getD_eq_getElem?_getD, List.getElem?_eq_getElem hia,
            Option.getD_some]
          exact List.getElem_mem hia
        rw [(hargl _ hmem2).1]
        exact hoffs _ hmem
      · rw [List.getD_eq_default _ _ (by omega)]
        exact Nat.zero_le _
    unfold fromEvent
    rw [if_pos (by rw [hcmd]; exact hcl)]
    cases hc : collectArgs ev.argvs ev.argvs_offset 0
        (min ARGV_OFFSET ev.argvs_offset.length) with
    | none =>
      have hsome := collectArgs_isSome ev.argvs ev.argvs_offset hb
        (min ARGV_OFFSET ev.argvs_offset.length) 0
      rw [hc] at hsome
      cases hsome
    | some args => simp
  · decide

/-- Witness for C10 at a concrete well-formed event. -/
theorem c10_from_event_safety_witness :
    (fromEvent sampleEvent 0).isSome = true :=
  c10_from_event_safety.1 sampleEvent 0 (by decide) (by decide) (by decide)

end Task
